import Mathlib

/-!
Verification of the exa directory-listing renderer: a shallow embedding of
the file filter/sort stage (`src/fs/filter.rs`), the grid layout caller
(`src/output/grid.rs`), the table renderer (`exa.rs` / `column.rs`) and the
file-name colouring (`src/output/file_name.rs`), together with proofs of the
specification's claims about them.

External crates (`natord`, `glob`, `term_grid`) and the standard library
pieces the code calls (`char::escape_default`, colour stripping) are not part
of the repository's sources; they are modelled from the specification, and
each such definition is marked `Modelled from the spec:`.
-/

/-! ### Comparator primitives

Rust's `Ordering`-returning comparators, embedded over `Nat`/`Int`/`Bool`/
`Char` values.  `cmpNat`/`cmpInt` model `Ord` on the unsigned/signed integer
metadata fields, `cmpBool` models `Ord` on `bool` (`false < true`), `cmpChar`
models `Ord` on `char` (by Unicode scalar value), `cmpList` models the
lexicographic ordering `Ord` gives to sequences, and `cmpOpt` models `Ord` on
`Option` (`None` sorts before `Some`). -/

def cmpNat (x y : Nat) : Ordering :=
  if x < y then .lt else if y < x then .gt else .eq

def cmpInt (x y : Int) : Ordering :=
  if x < y then .lt else if y < x then .gt else .eq

def cmpBool (x y : Bool) : Ordering :=
  match x, y with
  | false, true => .lt
  | true, false => .gt
  | _, _ => .eq

def cmpChar (x y : Char) : Ordering :=
  cmpNat x.toNat y.toNat

def cmpList (cmp : α → α → Ordering) : List α → List α → Ordering
  | [], [] => .eq
  | [], _ :: _ => .lt
  | _ :: _, [] => .gt
  | a :: as, b :: bs =>
    match cmp a b with
    | .eq => cmpList cmp as bs
    | o => o

def cmpOpt (cmp : α → α → Ordering) : Option α → Option α → Ordering
  | none, none => .eq
  | none, some _ => .lt
  | some _, none => .gt
  | some a, some b => cmp a b

/-- Byte-lexicographic comparison of Rust `String`s.  UTF-8 byte order agrees
with scalar-value order, so it is comparison of the character sequences. -/

def strCmp (a b : String) : Ordering :=
  cmpList cmpChar a.data b.data

/-! ### The `natord` crate, modelled from the spec

"Natural-order comparison: string ordering where embedded digit runs compare
by numeric value rather than lexicographically."  A string is tokenised into
a flat key: each maximal digit run contributes `0, value` and every other
character contributes `1, scalar value`; keys are compared lexicographically.
-/

/-- Numeric value of a decimal digit character. -/

def digitVal (c : Char) : Nat := c.toNat - 48

/-- Modelled from the spec: tokeniser for natural-order comparison.  The
first argument carries the value of the digit run currently being read. -/

def natTokensAux : Option Nat → List Char → List Nat
  | none, [] => []
  | some n, [] => [0, n]
  | none, c :: cs =>
    if c.isDigit then natTokensAux (some (digitVal c)) cs
    else 1 :: c.toNat :: natTokensAux none cs
  | some n, c :: cs =>
    if c.isDigit then natTokensAux (some (10 * n + digitVal c)) cs
    else 0 :: n :: 1 :: c.toNat :: natTokensAux none cs

def natTokens (s : String) : List Nat := natTokensAux none s.data

def lowerString (s : String) : String := ⟨s.data.map Char.toLower⟩

namespace natord

/-- Modelled from the spec: `natord::compare`, case-sensitive natural-order
string comparison (digit runs compared numerically). -/

def compare (a b : String) : Ordering :=
  cmpList cmpNat (natTokens a) (natTokens b)

/-- Modelled from the spec: `natord::compare_ignore_case`, natural-order
comparison after folding letter case. -/

def compare_ignore_case (a b : String) : Ordering :=
  natord.compare (lowerString a) (lowerString b)

end natord

/-! ### The glob pattern set (`glob` crate modelled from the spec)

The `glob` crate compiles shell-glob patterns (`*` matches any run of
characters except path separators, `?` matches one character, `[...]` is a
character class) and reports malformed patterns (such as an unclosed class)
as a `PatternError`. -/

/-- One compiled glob token. -/

inductive GlobTok where
  | star
  | one
  | lit (c : Char)
  | cls (neg : Bool) (items : List (Char × Char))
deriving DecidableEq, Repr

/-- Modelled from the spec: error reported for a malformed glob pattern. -/

structure PatternError where
  pos : Nat
  msg : String
deriving DecidableEq, Repr

/-- A compiled glob pattern. -/

structure Pattern where
  toks : List GlobTok
deriving DecidableEq, Repr

/-- Modelled from the spec: parse the body of a `[...]` class up to the
closing bracket; `none` when the class is never closed. -/

def parseClassItems : List Char → Option (List (Char × Char) × List Char)
  | [] => none
  | ']' :: rest => some ([], rest)
  | a :: '-' :: b :: rest =>
    if b = ']' then some ([(a, a), ('-', '-')], rest)
    else do
      let (items, r) ← parseClassItems rest
      some ((a, b) :: items, r)
  | a :: rest => do
    let (items, r) ← parseClassItems rest
    some ((a, a) :: items, r)

/-- Modelled from the spec: glob compilation.  The fuel argument only bounds
the recursion; `fuel = length + 1` always suffices because every step
consumes at least one character. -/

def parseToksAux : Nat → List Char → Nat → Except PatternError (List GlobTok)
  | 0, _, i => .error ⟨i, "pattern too long"⟩
  | _ + 1, [], _ => .ok []
  | fuel + 1, '*' :: cs, i => (parseToksAux fuel cs (i + 1)).map (.star :: ·)
  | fuel + 1, '?' :: cs, i => (parseToksAux fuel cs (i + 1)).map (.one :: ·)
  | fuel + 1, '[' :: cs, i =>
    match cs with
    | '!' :: cs' =>
      match parseClassItems cs' with
      | none => .error ⟨i, "invalid range pattern"⟩
      | some (items, rest) => (parseToksAux fuel rest (i + 1)).map (.cls true items :: ·)
    | _ =>
      match parseClassItems cs with
      | none => .error ⟨i, "invalid range pattern"⟩
      | some (items, rest) => (parseToksAux fuel rest (i + 1)).map (.cls false items :: ·)
  | fuel + 1, c :: cs, i => (parseToksAux fuel cs (i + 1)).map (.lit c :: ·)

/-- Modelled from the spec: `glob::Pattern::new`, compiling one pattern
string or reporting a parse error. -/

def Pattern.new (s : String) : Except PatternError Pattern :=
  (parseToksAux (s.data.length + 1) s.data 0).map (⟨·⟩)

/-- Membership of a character in a class. -/

def inClass (c : Char) (neg : Bool) (items : List (Char × Char)) : Bool :=
  let mem := items.any fun p => decide (p.1 ≤ c) && decide (c ≤ p.2)
  if neg then !mem else mem

/-- Modelled from the spec: glob matching against a character sequence.
`*` matches any run of characters except path separators; `?` matches one
character.  The fuel argument only bounds the recursion; every step shrinks
the pattern or the string, so `|pattern| + |string| + 1` suffices. -/

def matchToksAux : Nat → List GlobTok → List Char → Bool
  | 0, _, _ => false
  | _ + 1, [], [] => true
  | _ + 1, [], _ :: _ => false
  | fuel + 1, .star :: ts, s =>
    matchToksAux fuel ts s ||
      (match s with
       | [] => false
       | c :: s' => !(c = '/' : Bool) && matchToksAux fuel (.star :: ts) s')
  | _ + 1, .one :: _, [] => false
  | fuel + 1, .one :: ts, _ :: s => matchToksAux fuel ts s
  | _ + 1, .lit _ :: _, [] => false
  | fuel + 1, .lit a :: ts, c :: s => (a = c : Bool) && matchToksAux fuel ts s
  | _ + 1, .cls _ _ :: _, [] => false
  | fuel + 1, .cls n it :: ts, c :: s => inClass c n it && matchToksAux fuel ts s

/-- Modelled from the spec: `glob::Pattern::matches`, testing the pattern
against a full file name. -/

def Pattern.matches (p : Pattern) (s : String) : Bool :=
  matchToksAux (p.toks.length + s.data.length + 1) p.toks s.data

/-! ### The data model: files and the file filter (`src/fs/filter.rs`)

`fs::File` itself lives outside the sources; the fields below are the ones
the filter and the name renderer read.  The metadata fields mirror
`Metadata::{len, ino, mtime, atime, ctime}`; `type_char` is the file's type
category, whose fixed total order drives `SortField::FileType` (modelled
from the spec as an integer code); the remaining booleans are the type
predicates used by `FileName::style`. -/

structure File where
  name : String
  ext : Option String
  len : Nat
  ino : Nat
  mtime : Int
  atime : Int
  ctime : Int
  type_char : Nat
  is_directory : Bool := false
  is_executable_file : Bool := false
  is_link : Bool := false
  is_pipe : Bool := false
  is_char_device : Bool := false
  is_block_device : Bool := false
  is_socket : Bool := false
  is_file : Bool := true
  is_immediate : Bool := false
  is_image : Bool := false
  is_video : Bool := false
  is_music : Bool := false
  is_lossless : Bool := false
  is_crypto : Bool := false
  is_document : Bool := false
  is_compressed : Bool := false
  is_temp : Bool := false
  is_compiled : Bool := false
deriving DecidableEq, Repr

/-- Whether a field should be sorted case-sensitively or case-insensitively. -/

inductive SortCase where
  | Sensitive
  | Insensitive
deriving DecidableEq, Repr

/-- User-supplied field to sort by. -/

inductive SortField where
  | Unsorted
  | Name (c : SortCase)
  | Extension (c : SortCase)
  | Size
  | FileInode
  | ModifiedDate
  | AccessedDate
  | CreatedDate
  | FileType
deriving DecidableEq, Repr

/-- Modelled from the spec: which invisible "dot" files to include when
listing a directory (files-only, files-and-dotfiles, or
files-and-dotfiles-and-dot-dirs). -/

inductive DotFilter where
  | JustFiles
  | Dotfiles
  | DotfilesAndDots
deriving DecidableEq, Repr

/-- The list of compiled glob patterns tested against each file name. -/

structure IgnorePatterns where
  patterns : List Pattern
deriving DecidableEq, Repr

/-- `IgnorePatterns::empty`: a list that matches nothing. -/

def IgnorePatterns.empty : IgnorePatterns := ⟨[]⟩

/-- `IgnorePatterns::parse_from_iter`'s loop: compile each input in turn,
pushing successes and errors onto separate accumulators. -/

def parseFromIterGo : List String → List Pattern → List PatternError →
    List Pattern × List PatternError
  | [], ps, es => (ps, es)
  | input :: rest, ps, es =>
    match Pattern.new input with
    | .ok pat => parseFromIterGo rest (ps ++ [pat]) es
    | .error e => parseFromIterGo rest ps (es ++ [e])

/-- `IgnorePatterns::parse_from_iter`: turn the valid inputs into an
`IgnorePatterns` and return the inputs that do not parse separately. -/

def IgnorePatterns.parse_from_iter (iter : List String) :
    IgnorePatterns × List PatternError :=
  let (patterns, errors) := parseFromIterGo iter [] []
  (⟨patterns⟩, errors)

/-- `IgnorePatterns::is_ignored`: whether the given file should be hidden
from the results. -/

def IgnorePatterns.is_ignored (self : IgnorePatterns) (file : File) : Bool :=
  self.patterns.any fun p => p.matches file.name

/-- The file filter configuration (`FileFilter` in `src/fs/filter.rs`). -/

structure FileFilter where
  list_dirs_first : Bool
  sort_field : SortField
  reverse : Bool
  dot_filter : DotFilter
  ignore_patterns : IgnorePatterns
deriving DecidableEq, Repr

/-- `FileFilter::compare_files`: compares two files to determine the order
they should be listed in, depending on the sort field. -/

def compare_files (self : FileFilter) (a b : File) : Ordering :=
  match self.sort_field with
  | .Unsorted => .eq
  | .Name .Sensitive => natord.compare a.name b.name
  | .Name .Insensitive => natord.compare_ignore_case a.name b.name
  | .Size => cmpNat a.len b.len
  | .FileInode => cmpNat a.ino b.ino
  | .ModifiedDate => cmpInt a.mtime b.mtime
  | .AccessedDate => cmpInt a.atime b.atime
  | .CreatedDate => cmpInt a.ctime b.ctime
  | .FileType =>
    match cmpNat a.type_char b.type_char with
    | .eq => natord.compare a.name b.name
    | o => o
  | .Extension .Sensitive =>
    match cmpOpt strCmp a.ext b.ext with
    | .eq => natord.compare a.name b.name
    | o => o
  | .Extension .Insensitive =>
    match cmpOpt strCmp a.ext b.ext with
    | .eq => natord.compare_ignore_case a.name b.name
    | o => o

/-- The "less or equal" relation a Rust stable sort by `compare_files`
establishes: the comparator never said `Greater`. -/

def fileLE (self : FileFilter) (a b : File) : Prop :=
  compare_files self a b ≠ Ordering.gt

instance (self : FileFilter) : DecidableRel (fileLE self) := fun a b =>
  inferInstanceAs (Decidable (compare_files self a b ≠ Ordering.gt))

/-- The relation established by the directories-first pass, whose comparator
is `b.is_directory().cmp(&a.is_directory())`. -/

def dirsLE (a b : File) : Prop :=
  cmpBool b.is_directory a.is_directory ≠ Ordering.gt

instance : DecidableRel dirsLE := fun a b =>
  inferInstanceAs (Decidable (cmpBool b.is_directory a.is_directory ≠ Ordering.gt))

/-- `FileFilter::sort_files`: sort by the comparator (`Vec::sort_by` is a
stable sort, embedded as stable insertion sort), reverse if requested, then
optionally re-sort stably on the directory bit so directories come first. -/

def sort_files (self : FileFilter) (files : List File) : List File :=
  let sorted := files.insertionSort (fileLE self)
  let rev := if self.reverse then sorted.reverse else sorted
  if self.list_dirs_first then rev.insertionSort dirsLE else rev

/-! ### The grid layout (`src/output/grid.rs`, engine modelled from the spec)

The fitting engine itself lives in the external `term_grid` crate; only its
caller `Render::render` is in the sources.  The engine is modelled from the
spec: try column counts from `cells.len()` downward, a candidate `c` being
feasible iff the per-column maxima (cells assigned row-major when `across`,
column-major otherwise) plus `2 * (c - 1)` spacing cells fit the console
width; return the first (largest) feasible candidate, or `DoesNotFit`
(here `none`). -/

/-- A rendered, width-known piece of output. -/

structure Cell where
  contents : String
  width : Nat
deriving DecidableEq, Repr

/-- Grid options (`Options` in `src/output/grid.rs`). -/

structure GridOptions where
  across : Bool
  console_width : Nat
deriving DecidableEq, Repr

/-- A chosen arrangement: a column count and the per-column widths. -/

structure GridLayout where
  ncols : Nat
  widths : List Nat
deriving DecidableEq, Repr

/-- Row count for `len` cells in `c` columns: `ceil(len / c)`. -/

def rowsFor (len c : Nat) : Nat := (len + c - 1) / c

/-- The column index cell `i` lands in: row-major fill when `across`,
column-major (down each column) otherwise. -/

def colOf (across : Bool) (c rows i : Nat) : Nat :=
  if across then i % c else i / rows

/-- Modelled from the spec: width of column `j` — the maximum width of the
cells assigned to it. -/

def columnWidth (widths : List Nat) (across : Bool) (c j : Nat) : Nat :=
  ((widths.enum.filter fun p => colOf across c (rowsFor widths.length c) p.1 = j).map
    (·.2)).foldr max 0

/-- Modelled from the spec: the per-column widths of candidate `c`. -/

def colWidths (widths : List Nat) (across : Bool) (c : Nat) : List Nat :=
  (List.range c).map (columnWidth widths across c)

/-- Modelled from the spec: total width of candidate `c`, spacing included. -/

def totalWidth (cells : List Cell) (opts : GridOptions) (c : Nat) : Nat :=
  (colWidths (cells.map (·.width)) opts.across c).sum + 2 * (c - 1)

/-- Modelled from the spec: feasibility of candidate column count `c`. -/

def gridFits (cells : List Cell) (opts : GridOptions) (c : Nat) : Bool :=
  totalWidth cells opts c ≤ opts.console_width

/-- Modelled from the spec: scan candidate column counts downward and keep
the first feasible one. -/

def fitSearch (cells : List Cell) (opts : GridOptions) : Nat → Option GridLayout
  | 0 => none
  | c + 1 =>
    if gridFits cells opts (c + 1) then
      some ⟨c + 1, colWidths (cells.map (·.width)) opts.across (c + 1)⟩
    else fitSearch cells opts c

/-- Modelled from the spec: `Grid::fit_into_width` — the largest feasible
column count, `DoesNotFit` (`none`) when even one column does not fit, and a
zero-row layout for zero cells. -/

def fit_into_width (cells : List Cell) (opts : GridOptions) : Option GridLayout :=
  if cells.isEmpty then some ⟨0, []⟩
  else fitSearch cells opts cells.length

/-- Modelled from the spec: the text block of a fitted grid — one line per
row, cells padded to their column's width plus the two spacing cells. -/

def gridLines (cells : List Cell) (opts : GridOptions) (L : GridLayout) : List String :=
  let n := cells.length
  let rows := rowsFor n L.ncols
  (List.range rows).map fun i =>
    String.join ((List.range L.ncols).filterMap fun j =>
      let idx := if opts.across then i * L.ncols + j else j * rows + i
      match cells[idx]? with
      | none => none
      | some cell =>
        some (cell.contents ++ String.mk (List.replicate (L.widths.getD j 0 + 2 - cell.width) ' ')))

/-- `Render::render` from `src/output/grid.rs`, as the list of output lines:
paint every file name into a width-measured cell, and either display the
fitted grid or fall back to one plain name per line when nothing fits.
`paint` and `measure` stand for `FileName::paint` and the display-width
measurer, which live outside the embedded core. -/

def gridRender (paint : File → String) (measure : String → Nat)
    (files : List File) (opts : GridOptions) : List String :=
  let cells := files.map fun f => Cell.mk (paint f) (measure (paint f))
  match fit_into_width cells opts with
  | some display => gridLines cells opts display
  | none => files.map fun f => paint f

/-! ### The table renderer (`exa.rs` and `column.rs`)

The detail view builds a table of styled strings, strips the styling to
measure each cell (`colours::strip_formatting`, outside the embedded core,
appears as the `strip` parameter), takes per-column maxima, and prints each
row with every cell except the last padded to its column's width.  The
`max().unwrap()` and `*row.get(n)` panics of the source are surfaced as
`none`. -/

/-- A run of spaces. -/

def spaces (n : Nat) : String := String.mk (List.replicate n ' ')

namespace exa

/-- Column alignment (`column.rs`). -/

inductive Alignment where
  | Left
  | Right
deriving DecidableEq, Repr

/-- The table columns (`column.rs`). -/

inductive Column where
  | Permissions
  | FileName
  | FileSize (si : Bool)
  | Blocks
  | User (u : Nat)
  | Group
  | HardLinks
  | Inode
deriving DecidableEq, Repr

/-- `Column::alignment`: numbers right-aligned, text left-aligned. -/

def Column.alignment : Column → Alignment
  | .FileSize _ => .Right
  | .HardLinks => .Right
  | .Inode => .Right
  | .Blocks => .Right
  | _ => .Left

/-- `Column::header`. -/

def Column.header : Column → String
  | .Permissions => "Permissions"
  | .FileName => "Name"
  | .FileSize _ => "Size"
  | .Blocks => "Blocks"
  | .User _ => "User"
  | .Group => "Group"
  | .HardLinks => "Links"
  | .Inode => "inode"

/-- `Alignment::pad_string`: pad to `width`, counting the string as
`string_length` cells (its unformatted length); `Left` appends the spaces,
`Right` prepends them. -/

def Alignment.pad_string (self : Alignment) (string : String)
    (string_length width : Nat) : String :=
  match self with
  | .Left => string ++ spaces (width - string_length)
  | .Right => spaces (width - string_length) ++ string

end exa

/-- Sequence a list of options: `some` of all values, or `none` if any is
missing (a Rust `unwrap` panic). -/

def seqOpt : List (Option α) → Option (List α)
  | [] => some []
  | none :: _ => none
  | some a :: rest => (seqOpt rest).map (a :: ·)

/-- Column `n`'s width in `exa.rs`:
`lengths.iter().map(|row| *row.get(n)).max().unwrap()`.  `none` models the
panic of an out-of-bounds `get` or of `unwrap` on an empty maximum. -/

def maxColumn (lengths : List (List Nat)) (n : Nat) : Option Nat :=
  match seqOpt (lengths.map fun row => row[n]?) with
  | none => none
  | some vals => vals.max?

/-- All column widths of the table. -/

def columnWidths (lengths : List (List Nat)) (ncols : Nat) : Option (List Nat) :=
  seqOpt ((List.range ncols).map (maxColumn lengths))

/-- One printed row of the table: the zipped iteration of `exa.rs` over
column widths, row cells, cell lengths and columns, printing a space before
every column but the first, the final column unpadded and every other cell
padded by its column's alignment. -/

def renderCells : List Nat → List String → List Nat → List exa.Column → Nat → Nat → String
  | w :: ws, cell :: cs, fl :: fls, col :: cols, num, total =>
    (if num ≠ 0 then " " else "") ++
      (if num = total - 1 then cell else col.alignment.pad_string cell fl w) ++
      renderCells ws cs fls cols (num + 1) total
  | _, _, _, _, _, _ => ""

/-- The table portion of `exa` (`exa.rs` lines 90–112) as the list of
printed lines: measure every cell through `strip`, compute the column
widths, and print each row; `none` models the panic on an empty table. -/

def exaTable (strip : String → String) (columns : List exa.Column)
    (table : List (List String)) : Option (List String) :=
  let lengths : List (List Nat) := table.map fun row => row.map fun col => (strip col).length
  match columnWidths lengths columns.length with
  | none => none
  | some ws =>
    some ((lengths.zip table).map fun p => renderCells ws p.2 p.1 columns 0 columns.length)

/-! ### File-name colouring (`src/output/file_name.rs`)

Styles are opaque tokens; a `Colours` palette maps each semantic category to
one.  `FileName::style` picks the file's own style through the source's
first-match-wins predicate chain, and `coloured_file_name` paints the name,
escaping control characters. -/

/-- The per-file-type styles of the palette, as opaque tokens. -/

structure FileTypeColours where
  directory : Nat
  executable : Nat
  symlink : Nat
  pipe : Nat
  device : Nat
  socket : Nat
  special : Nat
  immediate : Nat
  image : Nat
  video : Nat
  music : Nat
  lossless : Nat
  crypto : Nat
  document : Nat
  compressed : Nat
  temp : Nat
  compiled : Nat
  normal : Nat
deriving DecidableEq, Repr

/-- The colour palette, reduced to the fields the name renderer reads. -/

structure Colours where
  control_char : Nat
  filetypes : FileTypeColours
deriving DecidableEq, Repr

/-- One ANSI-highlighted string: a style token and the text it paints. -/

structure ANSIString where
  style : Nat
  text : String
deriving DecidableEq, Repr

/-- `FileName::style`: the file's own style, decided by the source's
sequential first-match-wins predicate chain. -/

def FileName.style (colours : Colours) (f : File) : Nat :=
  if f.is_directory then colours.filetypes.directory
  else if f.is_executable_file then colours.filetypes.executable
  else if f.is_link then colours.filetypes.symlink
  else if f.is_pipe then colours.filetypes.pipe
  else if f.is_char_device || f.is_block_device then colours.filetypes.device
  else if f.is_socket then colours.filetypes.socket
  else if !f.is_file then colours.filetypes.special
  else if f.is_immediate then colours.filetypes.immediate
  else if f.is_image then colours.filetypes.image
  else if f.is_video then colours.filetypes.video
  else if f.is_music then colours.filetypes.music
  else if f.is_lossless then colours.filetypes.lossless
  else if f.is_crypto then colours.filetypes.crypto
  else if f.is_document then colours.filetypes.document
  else if f.is_compressed then colours.filetypes.compressed
  else if f.is_temp then colours.filetypes.temp
  else if f.is_compiled then colours.filetypes.compiled
  else colours.filetypes.normal

/-- Lower-case hexadecimal digit for a value below 16. -/

def hexDigitChar (n : Nat) : Char :=
  if n < 10 then Char.ofNat (48 + n) else Char.ofNat (87 + n)

/-- Lower-case hexadecimal digits of `n`; the fuel argument only bounds the
recursion and `n + 1` always suffices. -/

def toHexAux : Nat → Nat → List Char
  | 0, _ => []
  | fuel + 1, n =>
    if n < 16 then [hexDigitChar n]
    else toHexAux fuel (n / 16) ++ [hexDigitChar (n % 16)]

def toHex (n : Nat) : List Char := toHexAux (n + 1) n

/-- Modelled from the spec: Rust's `char::escape_default` — named escapes
for tab, carriage return, newline, backslash and quotes, printable ASCII
unchanged, and `\u{...}` with lower-case hex for everything else. -/

def escape_default (c : Char) : String :=
  if c = '\t' then "\\t"
  else if c = '\r' then "\\r"
  else if c = '\n' then "\\n"
  else if c = '\\' then "\\\\"
  else if c = '\'' then "\\'"
  else if c = '"' then "\\\""
  else if 0x20 ≤ c.toNat ∧ c.toNat ≤ 0x7e then String.singleton c
  else ⟨'\\' :: 'u' :: '{' :: toHex c.toNat ++ ['}']⟩

/-- `FileName::coloured_file_name`: the whole name in the file's own style
when every character is at least `0x20`; otherwise one fragment per
character, control characters escaped and painted `control_char`. -/

def coloured_file_name (colours : Colours) (file : File) : List ANSIString :=
  let file_style := FileName.style colours file
  if file.name.data.all (fun c => 0x20 ≤ c.toNat) then
    [⟨file_style, file.name⟩]
  else
    file.name.data.map fun c =>
      if 0x20 ≤ c.toNat then ⟨file_style, String.singleton c⟩
      else ⟨colours.control_char, escape_default c⟩

/-! ### Spec-side definitions

Independent definitions following the specification's words, to be compared
with the embeddings above. -/

/-- The spec's words for `SortField::Extension`: natural-order comparison of
the extensions, case-folded in the `Insensitive` sub-mode, with ties broken
by natural-order comparison of the full names. -/

def extensionCmpSpec (c : SortCase) (a b : File) : Ordering :=
  let extOf : File → String := fun f => f.ext.getD ""
  let cmpStrs : String → String → Ordering :=
    match c with
    | .Sensitive => natord.compare
    | .Insensitive => natord.compare_ignore_case
  match cmpStrs (extOf a) (extOf b) with
  | .eq => cmpStrs a.name b.name
  | o => o

/-- The spec's words for a table column's width: "the maximum `measure()`
width of that column across all rows". -/

def specColumnWidth (strip : String → String) (table : List (List String))
    (n : Nat) : Nat :=
  (table.map fun row => (strip (row.getD n "")).length).foldr max 0

/-- All spec-side column widths. -/

def specWidths (strip : String → String) (table : List (List String))
    (ncols : Nat) : List Nat :=
  (List.range ncols).map (specColumnWidth strip table)

/-- The spec's words for padding one cell: `Left` appends trailing spaces,
`Right` prepends leading spaces, the count taken from the unstyled length
while the styled text is emitted unchanged. -/

def specPad (al : exa.Alignment) (width : Nat) (strip : String → String)
    (cell : String) : String :=
  match al with
  | .Left => cell ++ spaces (width - (strip cell).length)
  | .Right => spaces (width - (strip cell).length) ++ cell

/-- The per-column pieces of one rendered row: every cell padded to its
column's width by its column's alignment, except the final column, which is
emitted unpadded. -/

def specPieces (strip : String → String) : List Nat → List exa.Column →
    List String → List String
  | w :: ws, col :: c2 :: cols, cell :: cells =>
    specPad col.alignment w strip cell :: specPieces strip ws (c2 :: cols) cells
  | _, [_], cell :: _ => [cell]
  | _, _, _ => []

/-- Join pieces with exactly one space separator. -/

def joinSep : List String → String
  | [] => ""
  | [s] => s
  | s :: rest => s ++ " " ++ joinSep rest

/-- The spec's words for the whole table: each row's pieces joined by single
spaces, using the per-column maximum widths. -/

def specTable (strip : String → String) (columns : List exa.Column)
    (table : List (List String)) : List String :=
  table.map fun row =>
    joinSep (specPieces strip (specWidths strip table columns.length) columns row)

def witFilterC1 : FileFilter :=
  ⟨true, SortField.Size, false, DotFilter.JustFiles, IgnorePatterns.empty⟩

def witFileB : File :=
  { name := "b.txt", ext := some "txt", len := 100, ino := 1,
    mtime := 0, atime := 0, ctime := 0, type_char := 0 }

def witFileA : File :=
  { name := "a.txt", ext := some "txt", len := 5000, ino := 2,
    mtime := 0, atime := 0, ctime := 0, type_char := 0 }

def witFileDir : File :=
  { name := "Dir", ext := none, len := 0, ino := 3,
    mtime := 0, atime := 0, ctime := 0, type_char := 1,
    is_directory := true, is_file := false }

def witFilterC3 : FileFilter :=
  ⟨false, SortField.Size, false, DotFilter.JustFiles, IgnorePatterns.empty⟩

def witFileE : File :=
  { name := "e.txt", ext := some "txt", len := 42, ino := 4,
    mtime := 0, atime := 0, ctime := 0, type_char := 0 }

def witFileF : File :=
  { name := "f.txt", ext := some "txt", len := 42, ino := 5,
    mtime := 0, atime := 0, ctime := 0, type_char := 0 }

def cexFilterExt : FileFilter :=
  ⟨false, SortField.Extension SortCase.Insensitive, false, DotFilter.JustFiles,
    IgnorePatterns.empty⟩

def cexFileZ : File :=
  { name := "z.TXT", ext := some "TXT", len := 0, ino := 6,
    mtime := 0, atime := 0, ctime := 0, type_char := 0 }

def cexFileA : File :=
  { name := "a.txt", ext := some "txt", len := 0, ino := 7,
    mtime := 0, atime := 0, ctime := 0, type_char := 0 }

def witFilterExt : FileFilter :=
  ⟨false, SortField.Extension SortCase.Sensitive, false, DotFilter.JustFiles,
    IgnorePatterns.empty⟩

def witCells : List Cell :=
  [⟨"aaa", 3⟩, ⟨"bbbbb", 5⟩, ⟨"cc", 2⟩, ⟨"dddddddd", 8⟩]

def witGridOpts : GridOptions := ⟨true, 20⟩

def witFileLong : File :=
  { name := "averyveryverylongname", ext := none, len := 0, ino := 8,
    mtime := 0, atime := 0, ctime := 0, type_char := 0 }

def witGridOptsSmall : GridOptions := ⟨false, 5⟩

def witPatternTxt : Pattern :=
  ⟨[GlobTok.star, GlobTok.lit '.', GlobTok.lit 't', GlobTok.lit 'x', GlobTok.lit 't']⟩

def witPatternOne : Pattern := ⟨[GlobTok.one]⟩

def witPatternsA : IgnorePatterns := ⟨[witPatternTxt, witPatternOne]⟩

def witPatternsB : IgnorePatterns := ⟨[witPatternOne, witPatternTxt]⟩

def witColumns : List exa.Column :=
  [exa.Column.Permissions, exa.Column.FileSize true, exa.Column.FileName]

def witTable : List (List String) :=
  [["rw", "100", "b.txt"], ["rwx", "5", "a.txt"]]

def witColours : Colours :=
  ⟨99, ⟨1, 2, 3, 4, 5, 6, 7, 8, 9, 10, 11, 12, 13, 14, 15, 16, 17, 18⟩⟩

def witFilePlain : File :=
  { name := "abc", ext := none, len := 0, ino := 9,
    mtime := 0, atime := 0, ctime := 0, type_char := 0 }

def witFileCtrl : File :=
  { name := "a\tb", ext := none, len := 0, ino := 10,
    mtime := 0, atime := 0, ctime := 0, type_char := 0 }

example : natord.compare "file2" "file10" = .lt := by decide

example : natord.compare "file10" "file2" = .gt := by decide

example : natord.compare_ignore_case "File" "file" = .eq := by decide

example : natord.compare "File" "file" = .lt := by decide

example : (Pattern.new "*.txt").toOption.map (·.matches "a.txt") = some true := by decide

example : (Pattern.new "*.txt").toOption.map (·.matches "a.ogg") = some false := by decide

example : (Pattern.new "[a").toOption = none := by decide

example : escape_default (Char.ofNat 5) = "\\u{5}" := by decide

example : escape_default '\t' = "\\t" := by decide

/-! ### Lemmas about the sorting passes -/

theorem dirsLE_iff (a b : File) :
    dirsLE a b ↔ (a.is_directory = true ∨ b.is_directory = false) := by
  cases ha : a.is_directory <;> cases hb : b.is_directory <;>
    simp [dirsLE, cmpBool, ha, hb]

/-- A list that is pairwise sorted for the "p-elements first" relation is
its `p`-part followed by its non-`p`-part. -/

theorem pairwise_filter_decomp {α : Type} {p : α → Bool} {l : List α}
    (h : l.Pairwise fun a b => p a = true ∨ p b = false) :
    l = l.filter p ++ l.filter (fun a => !p a) := by
  induction l with
  | nil => rfl
  | cons a t ih =>
    rcases List.pairwise_cons.mp h with ⟨ha, ht⟩
    cases hp : p a with
    | true =>
      have heq := ih ht
      rw [List.filter_cons_of_pos (by simp [hp]), List.filter_cons_of_neg (by simp [hp]),
        List.cons_append]
      exact congrArg (a :: ·) heq
    | false =>
      have hall : ∀ b ∈ t, p b = false := by
        intro b hb
        rcases ha b hb with h1 | h1
        · rw [hp] at h1; exact absurd h1 (by simp)
        · exact h1
      have h1 : t.filter p = [] :=
        List.filter_eq_nil_iff.mpr (by intro b hb; simp [hall b hb])
      have h2 : t.filter (fun a => !p a) = t :=
        List.filter_eq_self.mpr (by intro b hb; simp [hall b hb])
      rw [List.filter_cons_of_neg (by simp [hp]), List.filter_cons_of_pos (by simp [hp]),
        h1, h2, List.nil_append]

/-- Stability extraction: sorting does not change the subsequence of
elements of a class that the relation never reorders. -/

theorem filter_insertionSort_of_const {α : Type} {r : α → α → Prop} [DecidableRel r]
    {p : α → Bool} (hcl : ∀ a b, p a = true → p b = true → r a b) (l : List α) :
    (l.insertionSort r).filter p = l.filter p := by
  have hpw : (l.filter p).Pairwise r :=
    List.pairwise_of_forall_mem_list (by
      intro a haf b hbf
      exact hcl a b (List.of_mem_filter haf) (List.of_mem_filter hbf))
  have hsub : List.Sublist (l.filter p) (l.insertionSort r) :=
    List.sublist_insertionSort hpw (List.filter_sublist l)
  have h1 : List.Sublist ((l.filter p).filter p) ((l.insertionSort r).filter p) :=
    hsub.filter p
  have h2 : (l.filter p).filter p = l.filter p := by
    rw [List.filter_filter]
    simp only [Bool.and_self]
  rw [h2] at h1
  have hperm : List.Perm ((l.insertionSort r).filter p) (l.filter p) :=
    (List.perm_insertionSort r l).filter p
  exact (h1.eq_of_length hperm.length_eq.symm).symm

/-- The directories-first pass is exactly a stable partition on the
directory bit. -/

theorem insertionSort_dirsLE_eq (l : List File) :
    l.insertionSort dirsLE =
      l.filter (fun f => f.is_directory) ++ l.filter (fun f => !f.is_directory) := by
  haveI : IsTotal File dirsLE := ⟨by
    intro a b
    rw [dirsLE_iff, dirsLE_iff]
    cases a.is_directory <;> cases b.is_directory <;> simp⟩
  haveI : IsTrans File dirsLE := ⟨by
    intro a b c hab hbc
    rw [dirsLE_iff] at hab hbc ⊢
    rcases hab with h1 | h1
    · exact Or.inl h1
    · rcases hbc with h2 | h2
      · exact absurd h2 (by simp [h1])
      · exact Or.inr h2⟩
  have hs : (l.insertionSort dirsLE).Pairwise dirsLE := List.sorted_insertionSort dirsLE l
  have hpart : l.insertionSort dirsLE =
      (l.insertionSort dirsLE).filter (fun f => f.is_directory)
        ++ (l.insertionSort dirsLE).filter (fun f => !f.is_directory) :=
    pairwise_filter_decomp (hs.imp (by intro a b hab; simpa using (dirsLE_iff a b).mp hab))
  rw [hpart,
    filter_insertionSort_of_const (by intro a b ha _; exact (dirsLE_iff a b).mpr (Or.inl ha)),
    filter_insertionSort_of_const (by
      intro a b _ hb
      exact (dirsLE_iff a b).mpr (Or.inr (by simpa using hb)))]

theorem fileLE_update_ldf (self : FileFilter) (b : Bool) :
    fileLE { self with list_dirs_first := b } = fileLE self := rfl

/-- **C1.** With `list_dirs_first` enabled — whatever the sort field and the
reverse setting — `sort_files` puts every directory before every
non-directory, and the relative order inside each of the two groups is the
relative order those entries have in the `list_dirs_first`-disabled output:
the output is exactly the directory entries of the disabled output followed
by its non-directory entries. -/

theorem sort_files_dirs_first (self : FileFilter) (files : List File)
    (h : self.list_dirs_first = true) :
    sort_files self files =
      (sort_files { self with list_dirs_first := false } files).filter
          (fun f => f.is_directory)
        ++ (sort_files { self with list_dirs_first := false } files).filter
          (fun f => !f.is_directory) := by
  have hbase : sort_files { self with list_dirs_first := false } files =
      (if self.reverse then (files.insertionSort (fileLE self)).reverse
       else files.insertionSort (fileLE self)) := rfl
  have hmain : sort_files self files =
      (if self.reverse then (files.insertionSort (fileLE self)).reverse
       else files.insertionSort (fileLE self)).insertionSort dirsLE := by
    simp only [sort_files, h, if_true]
  rw [hmain, hbase, insertionSort_dirsLE_eq]

/-- Witness for C1 at the spec's concrete scenario. -/

theorem sort_files_dirs_first_witness :
    witFilterC1.list_dirs_first = true ∧
      sort_files witFilterC1 [witFileB, witFileA, witFileDir] =
        (sort_files { witFilterC1 with list_dirs_first := false }
            [witFileB, witFileA, witFileDir]).filter (fun f => f.is_directory)
          ++ (sort_files { witFilterC1 with list_dirs_first := false }
            [witFileB, witFileA, witFileDir]).filter (fun f => !f.is_directory) :=
  ⟨rfl, sort_files_dirs_first witFilterC1 [witFileB, witFileA, witFileDir] rfl⟩

example :
    sort_files witFilterC1 [witFileB, witFileA, witFileDir] =
      [witFileDir, witFileB, witFileA] := by decide

/-- **C3.** The sort `sort_files` performs is stable: with the later reverse
and directories-first passes disabled, any two entries whose keys compare
equal under `compare_files` keep their input relative order in the output,
for every sort field (`Unsorted` included, where all keys compare equal). -/

theorem sort_files_sort_stable (self : FileFilter) (a b : File) (l : List File)
    (hrev : self.reverse = false) (hdirs : self.list_dirs_first = false)
    (heq : compare_files self a b = Ordering.eq) (hsub : List.Sublist [a, b] l) :
    List.Sublist [a, b] (sort_files self l) := by
  have hs : sort_files self l = l.insertionSort (fileLE self) := by
    simp [sort_files, hrev, hdirs]
  rw [hs]
  exact List.pair_sublist_insertionSort (by simp [fileLE, heq]) hsub

/-- Witness for C3: two same-size files keep their order under a size sort. -/

theorem sort_files_sort_stable_witness :
    compare_files witFilterC3 witFileE witFileF = Ordering.eq ∧
      List.Sublist [witFileE, witFileF]
        (sort_files witFilterC3 [witFileF, witFileE, witFileF]) :=
  ⟨by decide,
    sort_files_sort_stable witFilterC3 witFileE witFileF [witFileF, witFileE, witFileF]
      rfl rfl (by decide) (by decide)⟩

/-- **C5 (counterexample).** Under `Extension(Insensitive)` the code compares
`"z.TXT"` before `"a.txt"` (`Less`), because it compares the raw extensions
`"TXT"` and `"txt"` with the plain lexicographic `Ord`; the claimed
case-insensitive natural-order comparison finds the extensions equal and
tie-breaks on the names, yielding `Greater`. -/

theorem compare_files_extension_cex :
    compare_files cexFilterExt cexFileZ cexFileA = Ordering.lt ∧
      extensionCmpSpec SortCase.Insensitive cexFileZ cexFileA = Ordering.gt := by
  decide

/-- **C5 (amended).** `Extension` comparison compares the optional
extensions with the standard lexicographic `Ord` on `Option<String>`
(extensionless files first), identically in both sub-modes; only when they
are exactly equal is the tie broken by natural-order comparison of the full
names, case-sensitively or case-insensitively per the sub-mode. -/

theorem compare_files_extension_amended (c : SortCase) (self : FileFilter) (a b : File)
    (h : self.sort_field = SortField.Extension c) :
    compare_files self a b =
      match cmpOpt strCmp a.ext b.ext with
      | Ordering.eq =>
        match c with
        | .Sensitive => natord.compare a.name b.name
        | .Insensitive => natord.compare_ignore_case a.name b.name
      | o => o := by
  cases c <;> simp [compare_files, h]

/-- Witness for the amended C5. -/

theorem compare_files_extension_amended_witness :
    witFilterExt.sort_field = SortField.Extension SortCase.Sensitive ∧
      compare_files witFilterExt cexFileZ cexFileA =
        match cmpOpt strCmp cexFileZ.ext cexFileA.ext with
        | Ordering.eq => natord.compare cexFileZ.name cexFileA.name
        | o => o :=
  ⟨rfl, compare_files_extension_amended SortCase.Sensitive witFilterExt cexFileZ cexFileA rfl⟩

/-- The countdown search keeps the largest feasible candidate. -/

theorem fitSearch_spec (cells : List Cell) (opts : GridOptions) :
    ∀ n, (∀ L, fitSearch cells opts n = some L →
        1 ≤ L.ncols ∧ L.ncols ≤ n ∧ gridFits cells opts L.ncols = true ∧
          ∀ c, c ≤ n → gridFits cells opts c = true → c ≤ L.ncols)
      ∧ (fitSearch cells opts n = none →
          ∀ c, 1 ≤ c → c ≤ n → gridFits cells opts c = false) := by
  intro n
  induction n with
  | zero =>
    constructor
    · intro L hL
      simp [fitSearch] at hL
    · intro _ c h1 h2
      omega
  | succ m ih =>
    constructor
    · intro L hL
      simp only [fitSearch] at hL
      by_cases hf : gridFits cells opts (m + 1) = true
      · rw [if_pos hf] at hL
        cases hL
        exact ⟨Nat.succ_le_succ (Nat.zero_le m), Nat.le_refl _, hf, fun c hc _ => hc⟩
      · rw [if_neg hf] at hL
        rcases (ih.1) L hL with ⟨h1, h2, h3, h4⟩
        refine ⟨h1, by omega, h3, ?_⟩
        intro c hc hfc
        rcases Nat.eq_or_lt_of_le hc with hceq | hclt
        · exact absurd (hceq ▸ hfc) hf
        · exact h4 c (by omega) hfc
    · intro hnone c h1 h2
      simp only [fitSearch] at hnone
      by_cases hf : gridFits cells opts (m + 1) = true
      · rw [if_pos hf] at hnone
        cases hnone
      · rw [if_neg hf] at hnone
        rcases Nat.eq_or_lt_of_le h2 with hceq | hclt
        · rw [hceq]
          exact Bool.not_eq_true _ ▸ Bool.eq_false_iff.mpr (by simpa using hf)
        · exact (ih.2) hnone c h1 (by omega)

/-- **C2.** For every non-empty cell sequence, the fitting engine returns a
layout whose column count is feasible (per-column maxima, row-major or
column-major per `across`, plus `2 * (c - 1)` spacing within the console
width) and is the largest feasible count up to `cells.length`; it returns
`DoesNotFit` (`none`) exactly when no candidate, `c = 1` included, is
feasible. -/

theorem fit_into_width_spec (cells : List Cell) (opts : GridOptions) (h : cells ≠ []) :
    (∀ L, fit_into_width cells opts = some L →
        1 ≤ L.ncols ∧ L.ncols ≤ cells.length ∧ gridFits cells opts L.ncols = true ∧
          ∀ c, c ≤ cells.length → gridFits cells opts c = true → c ≤ L.ncols)
      ∧ (fit_into_width cells opts = none →
          ∀ c, 1 ≤ c → c ≤ cells.length → gridFits cells opts c = false) := by
  have hne : cells.isEmpty = false := by
    cases cells with
    | nil => exact absurd rfl h
    | cons a t => rfl
  rw [show fit_into_width cells opts = fitSearch cells opts cells.length by
    simp [fit_into_width, hne]]
  exact fitSearch_spec cells opts cells.length

/-- Witness for C2 at the spec's concrete widths `[3, 5, 2, 8]`,
`console_width = 20`. -/

theorem fit_into_width_spec_witness :
    witCells ≠ [] ∧
      ((∀ L, fit_into_width witCells witGridOpts = some L →
          1 ≤ L.ncols ∧ L.ncols ≤ witCells.length ∧
            gridFits witCells witGridOpts L.ncols = true ∧
            ∀ c, c ≤ witCells.length → gridFits witCells witGridOpts c = true →
              c ≤ L.ncols)
        ∧ (fit_into_width witCells witGridOpts = none →
            ∀ c, 1 ≤ c → c ≤ witCells.length →
              gridFits witCells witGridOpts c = false)) :=
  ⟨by decide, fit_into_width_spec witCells witGridOpts (by decide)⟩

example : (fit_into_width witCells witGridOpts).map (·.ncols) = some 3 := by decide

/-- **C6.** When the grid does not fit, `Render::render` does not fail: it
falls back to exactly one line per file, each line being that file's
rendered name, in input order. -/

theorem gridRender_fallback (paint : File → String) (measure : String → Nat)
    (files : List File) (opts : GridOptions)
    (h : fit_into_width (files.map fun f => Cell.mk (paint f) (measure (paint f))) opts
      = none) :
    (gridRender paint measure files opts).length = files.length ∧
      ∀ i : Nat, (gridRender paint measure files opts)[i]? = (files[i]?).map paint := by
  have hr : gridRender paint measure files opts = files.map paint := by
    simp only [gridRender, h]
  rw [hr]
  exact ⟨by simp, fun i => List.getElem?_map paint files i⟩

/-- Witness for C6: a single name wider than the console. -/

theorem gridRender_fallback_witness :
    fit_into_width ([witFileLong].map fun f =>
        Cell.mk ((fun g : File => g.name) f) (String.length ((fun g : File => g.name) f)))
      witGridOptsSmall = none ∧
      (gridRender (fun g : File => g.name) String.length [witFileLong]
          witGridOptsSmall).length = 1 ∧
      ∀ i : Nat, (gridRender (fun g : File => g.name) String.length [witFileLong]
          witGridOptsSmall)[i]? = ([witFileLong][i]?).map (fun g : File => g.name) := by
  have h := gridRender_fallback (fun g : File => g.name) String.length [witFileLong]
    witGridOptsSmall (by decide)
  exact ⟨by decide, h.1, h.2⟩

/-- Characterisation of the `parse_from_iter` accumulation loop. -/

theorem parseFromIterGo_spec :
    ∀ (inputs : List String) (ps : List Pattern) (es : List PatternError),
      parseFromIterGo inputs ps es =
        (ps ++ inputs.filterMap (fun i => (Pattern.new i).toOption),
          es ++ inputs.filterMap (fun i =>
            match Pattern.new i with
            | .ok _ => none
            | .error e => some e)) := by
  intro inputs
  induction inputs with
  | nil =>
    intro ps es
    simp [parseFromIterGo]
  | cons i rest ih =>
    intro ps es
    simp only [parseFromIterGo]
    cases hn : Pattern.new i with
    | ok p =>
      simp [ih, List.filterMap_cons, hn, Except.toOption, List.append_assoc]
    | error e =>
      simp [ih, List.filterMap_cons, hn, Except.toOption, List.append_assoc]

/-- Successes and failures of compilation partition the inputs. -/

theorem parse_partition_length (inputs : List String) :
    (inputs.filterMap (fun i => (Pattern.new i).toOption)).length
      + (inputs.filterMap (fun i =>
          match Pattern.new i with
          | .ok _ => none
          | .error e => some e)).length = inputs.length := by
  induction inputs with
  | nil => rfl
  | cons i rest ih =>
    cases hn : Pattern.new i <;>
      simp only [List.filterMap_cons, hn, Except.toOption, List.length_cons,
        List.length_append] at ih ⊢ <;> omega

/-- **C7.** `parse_from_iter` never fails as a whole: each input is compiled
independently, the returned set is exactly the successfully compiled
patterns in input order, the error list is exactly the malformed inputs'
errors in input order (a malformed input never stops later inputs), and the
two lengths sum to the number of inputs. -/

theorem parse_from_iter_spec (inputs : List String) :
    (IgnorePatterns.parse_from_iter inputs).1.patterns =
        inputs.filterMap (fun i => (Pattern.new i).toOption)
      ∧ (IgnorePatterns.parse_from_iter inputs).2 =
        inputs.filterMap (fun i =>
          match Pattern.new i with
          | .ok _ => none
          | .error e => some e)
      ∧ (IgnorePatterns.parse_from_iter inputs).1.patterns.length
          + (IgnorePatterns.parse_from_iter inputs).2.length = inputs.length := by
  have hgo := parseFromIterGo_spec inputs [] []
  refine ⟨?_, ?_, ?_⟩ <;>
    simp [IgnorePatterns.parse_from_iter, hgo, parse_partition_length]

example :
    (IgnorePatterns.parse_from_iter ["*.txt", "[", "?x"]).1.patterns.length = 2 ∧
      (IgnorePatterns.parse_from_iter ["*.txt", "[", "?x"]).2.length = 1 := by decide

/-- **C9.** `is_ignored` is true iff at least one compiled pattern matches
the full name — matching is existential, so permuting the pattern set never
changes the result — and the empty set ignores nothing. -/

theorem is_ignored_spec (ps : IgnorePatterns) (f : File) :
    (ps.is_ignored f = true ↔ ∃ p ∈ ps.patterns, p.matches f.name = true)
      ∧ (∀ qs : IgnorePatterns, List.Perm ps.patterns qs.patterns →
          ps.is_ignored f = qs.is_ignored f)
      ∧ IgnorePatterns.empty.is_ignored f = false := by
  refine ⟨?_, ?_, rfl⟩
  · simp [IgnorePatterns.is_ignored, List.any_eq_true]
  · intro qs hperm
    simp only [IgnorePatterns.is_ignored]
    refine Bool.eq_iff_iff.mpr ?_
    simp only [List.any_eq_true]
    constructor
    · rintro ⟨p, hp, hm⟩
      exact ⟨p, hperm.mem_iff.mp hp, hm⟩
    · rintro ⟨p, hp, hm⟩
      exact ⟨p, hperm.mem_iff.mpr hp, hm⟩

/-- Witness for C9: reordering the two patterns does not change the verdict. -/

theorem is_ignored_spec_witness :
    witPatternsA.is_ignored witFileE = witPatternsB.is_ignored witFileE :=
  (is_ignored_spec witPatternsA witFileE).2.1 witPatternsB (by decide)

/-- **C8 (code evaluation).** On an empty table (no header row) with the
usual non-empty column list, the table layout fails — the column-width pass
takes `max().unwrap()` over zero rows — instead of producing an empty
sequence of lines. -/

theorem exaTable_empty_rows_bug :
    exaTable (fun s => s) [exa.Column.FileName] [] = none := rfl

/-! ### The table layout agrees with its specification -/

theorem seqOpt_map_eq_some {α β : Type} {f : α → Option β} {g : α → β}
    (l : List α) (h : ∀ x ∈ l, f x = some (g x)) :
    seqOpt (l.map f) = some (l.map g) := by
  induction l with
  | nil => rfl
  | cons a t ih =>
    simp only [List.map_cons, seqOpt, h a (List.mem_cons_self a t)]
    rw [ih fun x hx => h x (List.mem_cons_of_mem a hx)]
    rfl

theorem max?_eq_foldr (l : List Nat) (hl : l ≠ []) :
    l.max? = some (l.foldr max 0) := by
  have hfold : ∀ (t : List Nat) (a : Nat), t.foldl max a = max a (t.foldr max 0) := by
    intro t
    induction t with
    | nil => intro a; simp
    | cons b bs ih =>
      intro a
      simp only [List.foldl_cons, List.foldr_cons, ih (max a b), Nat.max_assoc]
  cases l with
  | nil => exact absurd rfl hl
  | cons a t =>
    rw [List.max?_cons', hfold t a]
    rfl

theorem columnWidths_eq (strip : String → String) (table : List (List String))
    (ncols : Nat) (hne : table ≠ [])
    (hrows : ∀ row ∈ table, row.length = ncols) :
    columnWidths (table.map fun row => row.map fun s => (strip s).length) ncols
      = some (specWidths strip table ncols) := by
  unfold columnWidths specWidths
  apply seqOpt_map_eq_some
  intro n hn
  have hn' : n < ncols := List.mem_range.mp hn
  unfold maxColumn
  have hvals :
      seqOpt (((table.map fun row => row.map fun s => (strip s).length)).map
          fun row => row[n]?)
        = some ((table.map fun row => row.map fun s => (strip s).length).map
          fun row => row.getD n 0) := by
    apply seqOpt_map_eq_some
    intro row hrow
    rcases List.mem_map.mp hrow with ⟨r, hr, rfl⟩
    have hlen : n < (r.map fun s => (strip s).length).length := by
      simpa [hrows r hr] using hn'
    rw [List.getElem?_eq_getElem hlen]
    rw [List.getD_eq_getElem?_getD, List.getElem?_eq_getElem hlen]
    rfl
  rw [hvals]
  show ((table.map fun row => row.map fun s => (strip s).length).map
      fun row => row.getD n 0).max? = some (specColumnWidth strip table n)
  rw [max?_eq_foldr _ (by simpa using hne)]
  unfold specColumnWidth
  congr 1
  rw [List.map_map]
  congr 1
  apply List.map_congr_left
  intro r hr
  have hlen : n < r.length := by
    rw [hrows r hr]; exact hn'
  simp only [Function.comp_apply, List.getD_eq_getElem?_getD, List.getElem?_map,
    List.getElem?_eq_getElem hlen]
  rfl

theorem pad_string_eq_specPad (strip : String → String) (al : exa.Alignment)
    (s : String) (w : Nat) :
    al.pad_string s ((strip s).length) w = specPad al w strip s := by
  cases al <;> rfl

theorem specPieces_ne_nil (strip : String → String) :
    ∀ (ws : List Nat) (cols : List exa.Column) (cells : List String),
      ws.length = cols.length → cells.length = cols.length → cols ≠ [] →
      specPieces strip ws cols cells ≠ [] := by
  intro ws cols cells hw hc hne
  cases cols with
  | nil => exact absurd rfl hne
  | cons c cols' =>
    cases ws with
    | nil => simp at hw
    | cons w ws' =>
      cases cells with
      | nil => simp at hc
      | cons x xs =>
        cases cols' <;> simp [specPieces]

theorem joinSep_cons (s : String) (ps : List String) (h : ps ≠ []) :
    joinSep (s :: ps) = s ++ " " ++ joinSep ps := by
  cases ps with
  | nil => exact absurd rfl h
  | cons a t => rfl

theorem renderCells_eq_joinSep (strip : String → String) :
    ∀ (cols : List exa.Column) (ws : List Nat) (cells : List String) (num total : Nat),
      ws.length = cols.length → cells.length = cols.length →
      total = num + cols.length → cols ≠ [] →
      renderCells ws cells (cells.map fun s => (strip s).length) cols num total =
        (if num = 0 then "" else " ") ++ joinSep (specPieces strip ws cols cells) := by
  intro cols
  induction cols with
  | nil => intro ws cells num total _ _ _ hc; exact absurd rfl hc
  | cons c restCols ih =>
    intro ws cells num total hws hcells htot _
    cases ws with
    | nil => simp at hws
    | cons w ws' =>
    cases cells with
    | nil => simp at hcells
    | cons cell cells' =>
    simp only [List.length_cons] at hws hcells
    cases restCols with
    | nil =>
      have hws0 : ws' = [] := List.eq_nil_of_length_eq_zero (by simpa using hws)
      have hcs0 : cells' = [] := List.eq_nil_of_length_eq_zero (by simpa using hcells)
      subst hws0 hcs0
      simp only [List.length_cons, List.length_nil] at htot
      simp only [List.map_cons, List.map_nil, renderCells]
      rw [if_pos (by omega : num = total - 1)]
      simp only [specPieces, joinSep, String.append_empty]
      by_cases h0 : num = 0
      · simp [h0]
      · simp [h0, if_neg h0]
    | cons c2 restCols' =>
      have hne1 : ¬ num = total - 1 := by
        simp only [List.length_cons] at htot
        omega
      simp only [List.map_cons, renderCells]
      rw [if_neg hne1]
      have hrec := ih ws' cells' (num + 1) total (by simpa using hws)
        (by simpa using hcells)
        (by simp only [List.length_cons] at htot ⊢; omega) (by simp)
      rw [hrec, if_neg (by omega : ¬ num + 1 = 0)]
      have hsp : specPieces strip (w :: ws') (c :: c2 :: restCols') (cell :: cells') =
          specPad c.alignment w strip cell ::
            specPieces strip ws' (c2 :: restCols') cells' := rfl
      rw [hsp, joinSep_cons _ _ (specPieces_ne_nil strip ws' (c2 :: restCols') cells'
        (by simpa using hws) (by simpa using hcells) (by simp))]
      rw [pad_string_eq_specPad]
      by_cases h0 : num = 0
      · simp [h0, String.empty_append, String.append_assoc]
      · simp [h0, if_neg h0, String.append_assoc]

/-- **C4.** For a non-empty, rectangular table, the `exa.rs` renderer
succeeds and equals the specification: each column is as wide as the
maximum style-stripped width of its cells over all rows (a header row, if
the caller added one, is simply the first row), each cell except those of
the final column is padded to that width by its column's alignment using
the unstyled length, columns are joined by exactly one space, and the final
column is emitted unpadded. -/

theorem exaTable_spec (strip : String → String) (columns : List exa.Column)
    (table : List (List String)) (hne : table ≠ [])
    (hrows : ∀ row ∈ table, row.length = columns.length) :
    exaTable strip columns table = some (specTable strip columns table) := by
  have hcw := columnWidths_eq strip table columns.length hne hrows
  simp only [exaTable]
  rw [hcw]
  show some (((table.map fun row => row.map fun s => (strip s).length).zip table).map
      fun p => renderCells (specWidths strip table columns.length) p.2 p.1 columns 0
        columns.length)
    = some (specTable strip columns table)
  congr 1
  unfold specTable
  have main : ∀ (rows : List (List String)), (∀ r ∈ rows, r.length = columns.length) →
      ((rows.map fun row => row.map fun s => (strip s).length).zip rows).map
          (fun p => renderCells (specWidths strip table columns.length) p.2 p.1 columns 0
            columns.length)
        = rows.map fun row =>
            joinSep (specPieces strip (specWidths strip table columns.length) columns row) := by
    intro rows hr
    induction rows with
    | nil => rfl
    | cons r rest ih =>
      simp only [List.map_cons, List.zip_cons_cons]
      rw [ih fun x hx => hr x (List.mem_cons_of_mem _ hx)]
      congr 1
      by_cases hcols : columns = []
      · subst hcols
        have hr0 : r = [] := List.eq_nil_of_length_eq_zero
          (by simpa using hr r (List.mem_cons_self _ _))
        subst hr0
        rfl
      · have hrc := renderCells_eq_joinSep strip columns
          (specWidths strip table columns.length) r 0 columns.length
          (by simp [specWidths]) (hr r (List.mem_cons_self _ _)) (by omega) hcols
        rw [hrc]
        simp
  exact main table hrows

/-- Witness for C4 on a two-row, three-column table. -/

theorem exaTable_spec_witness :
    witTable ≠ [] ∧ (∀ row ∈ witTable, row.length = witColumns.length) ∧
      exaTable (fun s => s) witColumns witTable
        = some (specTable (fun s => s) witColumns witTable) :=
  ⟨by decide, by decide,
    exaTable_spec (fun s => s) witColumns witTable (by decide) (by decide)⟩

example :
    exaTable (fun s => s) witColumns witTable
      = some ["rw  100 b.txt", "rwx   5 a.txt"] := by decide

/-! ### The coloured file name agrees with its specification -/

theorem hexDigitChar_printable (k : Nat) (h : k < 16) :
    0x20 ≤ (hexDigitChar k).toNat := by
  interval_cases k <;> decide

theorem toHexAux_printable :
    ∀ (fuel n : Nat), ∀ c ∈ toHexAux fuel n, 0x20 ≤ c.toNat := by
  intro fuel
  induction fuel with
  | zero =>
    intro n c hc
    simp [toHexAux] at hc
  | succ f ih =>
    intro n c hc
    simp only [toHexAux] at hc
    by_cases h : n < 16
    · rw [if_pos h] at hc
      simp only [List.mem_singleton] at hc
      subst hc
      exact hexDigitChar_printable n h
    · rw [if_neg h] at hc
      rcases List.mem_append.mp hc with h1 | h1
      · exact ih _ c h1
      · simp only [List.mem_singleton] at h1
        subst h1
        exact hexDigitChar_printable _ (Nat.mod_lt _ (by omega))

theorem escape_default_printable (c : Char) :
    ∀ d ∈ (escape_default c).data, 0x20 ≤ d.toNat := by
  intro d hd
  unfold escape_default at hd
  split_ifs at hd with h1 h2 h3 h4 h5 h6 h7
  · fin_cases hd <;> decide
  · fin_cases hd <;> decide
  · fin_cases hd <;> decide
  · fin_cases hd <;> decide
  · fin_cases hd <;> decide
  · fin_cases hd <;> decide
  · rw [show (String.singleton c).data = [c] from rfl, List.mem_singleton] at hd
    subst hd
    exact h7.1
  · rcases List.mem_cons.mp hd with rfl | hd2
    · decide
    rcases List.mem_cons.mp hd2 with rfl | hd3
    · decide
    rcases List.mem_cons.mp hd3 with rfl | hd4
    · decide
    rcases List.mem_append.mp hd4 with h8 | h8
    · exact toHexAux_printable _ _ d h8
    · simp only [List.mem_singleton] at h8
      subst h8
      decide

/-- **C10.** When every character of a file name is at least `U+0020`, the
rendered name is a single fragment, the name unchanged in the file's own
style.  Otherwise no character below `U+0020` is emitted raw: each such
character becomes its `escape_default` text in the control-character style,
every other character is emitted unchanged in the file's own style, and no
fragment of the output contains a raw character below `U+0020`. -/

theorem coloured_file_name_spec (colours : Colours) (file : File) :
    ((∀ c ∈ file.name.data, 0x20 ≤ c.toNat) →
        coloured_file_name colours file = [⟨FileName.style colours file, file.name⟩])
      ∧ ((¬ ∀ c ∈ file.name.data, 0x20 ≤ c.toNat) →
          coloured_file_name colours file =
              file.name.data.map (fun c =>
                if 0x20 ≤ c.toNat then
                  ⟨FileName.style colours file, String.singleton c⟩
                else ⟨colours.control_char, escape_default c⟩)
            ∧ ∀ a ∈ coloured_file_name colours file, ∀ d ∈ a.text.data,
                0x20 ≤ d.toNat) := by
  constructor
  · intro h
    have hall : file.name.data.all (fun c => decide (0x20 ≤ c.toNat)) = true :=
      List.all_eq_true.mpr fun c hc => decide_eq_true (h c hc)
    simp [coloured_file_name, hall]
  · intro h
    have hall : file.name.data.all (fun c => decide (0x20 ≤ c.toNat)) = false := by
      cases hb : file.name.data.all (fun c => decide (0x20 ≤ c.toNat)) with
      | true =>
        exact absurd (fun c hc => of_decide_eq_true (List.all_eq_true.mp hb c hc)) h
      | false => rfl
    have hmap : coloured_file_name colours file =
        file.name.data.map (fun c =>
          if 0x20 ≤ c.toNat then
            ⟨FileName.style colours file, String.singleton c⟩
          else ⟨colours.control_char, escape_default c⟩) := by
      simp [coloured_file_name, hall]
    refine ⟨hmap, ?_⟩
    intro a ha d hd
    rw [hmap] at ha
    rcases List.mem_map.mp ha with ⟨c, _, rfl⟩
    by_cases hge : 0x20 ≤ c.toNat
    · rw [if_pos hge] at hd
      rw [show (String.singleton c).data = [c] from rfl, List.mem_singleton] at hd
      subst hd
      exact hge
    · rw [if_neg hge] at hd
      exact escape_default_printable c d hd

/-- Witness for C10: a clean name and a name containing a tab. -/

theorem coloured_file_name_spec_witness :
    coloured_file_name witColours witFilePlain
        = [⟨FileName.style witColours witFilePlain, witFilePlain.name⟩]
      ∧ (coloured_file_name witColours witFileCtrl
            = witFileCtrl.name.data.map (fun c =>
                if 0x20 ≤ c.toNat then
                  ⟨FileName.style witColours witFileCtrl, String.singleton c⟩
                else ⟨witColours.control_char, escape_default c⟩)
          ∧ ∀ a ∈ coloured_file_name witColours witFileCtrl, ∀ d ∈ a.text.data,
              0x20 ≤ d.toNat) :=
  ⟨(coloured_file_name_spec witColours witFilePlain).1 (by decide),
    (coloured_file_name_spec witColours witFileCtrl).2 (by decide)⟩

example :
    coloured_file_name witColours witFileCtrl
      = [⟨18, "a"⟩, ⟨99, "\\t"⟩, ⟨18, "b"⟩] := by decide
